import Mathlib

/-!
Shallow embedding of the XAUUSD quant data logger (src/logging/mt5_logger.py):
the session classifier, the tick enricher, the watermark store, and the
tick-ingestion portion of the main loop, together with theorems checking the
specification's claims about them.

Machine integers are modelled as `Int`/`Nat`; float arithmetic on prices is
modelled as exact rational arithmetic (`Rat`), with decimal rounding
`roundTo d q = round (q * 10^d) / 10^d` standing for the `.round(d)` calls.
-/

namespace MT5Logger

/-- Configuration constant `MAX_FAILS = 5`: consecutive fetch failures
before the watermark timestamp is forcibly reset. -/
def MAX_FAILS : ℕ := 5

/-! ## Session classifier (`get_session`) -/

/-- The four trading-session labels returned by `get_session`. -/
inductive Session where
  | Asia
  | London
  | NewYork
  | LondonNY_Overlap
deriving DecidableEq, Repr

/-- The fractional hour `h = dt.hour + dt.minute / 60.0` computed by
`get_session` from a UTC instant. -/
def frac_hour (hour minute : ℕ) : ℚ :=
  (hour : ℚ) + (minute : ℚ) / 60

/-- `get_session`: maps a UTC instant (hour and minute) to a session label.
Mirrors the `if 12 <= h < 16 / elif 7 <= h < 16 / elif 12 <= h < 21 / else`
cascade of the source. -/
def get_session (hour minute : ℕ) : Session :=
  if 12 ≤ frac_hour hour minute ∧ frac_hour hour minute < 16 then .LondonNY_Overlap
  else if 7 ≤ frac_hour hour minute ∧ frac_hour hour minute < 16 then .London
  else if 12 ≤ frac_hour hour minute ∧ frac_hour hour minute < 21 then .NewYork
  else .Asia

/-! ## Time helpers (`msc_to_dt` projections) -/

/-- UTC hour-of-day of a milliseconds-since-epoch timestamp
(the `.hour` of `msc_to_dt`). -/
def hourOfMsc (msc : ℤ) : ℕ :=
  (((msc.fdiv 1000).fdiv 3600).emod 24).toNat

/-- UTC minute-of-hour of a milliseconds-since-epoch timestamp
(the `.minute` of `msc_to_dt`). -/
def minuteOfMsc (msc : ℤ) : ℕ :=
  ((((msc.fdiv 1000).emod 3600)).fdiv 60).toNat

/-- English weekday name of a milliseconds-since-epoch timestamp
(pandas `day_name()`); day 0 of the epoch is a Thursday. -/
def dayNameOfMsc (msc : ℤ) : String :=
  match (((msc.fdiv 86400000) + 4).emod 7).toNat with
  | 0 => "Sunday"
  | 1 => "Monday"
  | 2 => "Tuesday"
  | 3 => "Wednesday"
  | 4 => "Thursday"
  | 5 => "Friday"
  | _ => "Saturday"

/-! ## Flag decoding (`flag_description`) -/

/-- `flag_description`: decodes the MT5 tick-flag bitmask into a
`|`-joined label, defaulting to `TICK` when no known bit is set. -/
def flag_description (flags : ℕ) : String :=
  let parts :=
    (if flags &&& 0x02 ≠ 0 then ["BID"] else []) ++
    (if flags &&& 0x04 ≠ 0 then ["ASK"] else []) ++
    (if flags &&& 0x08 ≠ 0 then ["LAST"] else []) ++
    (if flags &&& 0x10 ≠ 0 then ["VOLUME"] else []) ++
    (if flags &&& 0x20 ≠ 0 then ["BUY"] else []) ++
    (if flags &&& 0x40 ≠ 0 then ["SELL"] else [])
  if parts = [] then "TICK" else String.intercalate "|" parts

/-! ## Tick enrichment (`process_ticks`) -/

/-- Decimal rounding to `d` places, modelling pandas `.round(d)` in exact
rational arithmetic. -/
def roundTo (d : ℕ) (q : ℚ) : ℚ :=
  ((round (q * 10 ^ d) : ℤ) : ℚ) / 10 ^ d

/-- A raw tick as delivered by `mt5.copy_ticks_from`: the fields of the
structured array consumed by `process_ticks`. `volume_real` is `none` when
the source did not deliver that column (it then defaults to `0.0`). -/
structure RawTick where
  time_msc : ℤ
  bid : ℚ
  ask : ℚ
  last : ℚ
  volume : ℤ
  volume_real : Option ℚ
  flags : ℕ
deriving DecidableEq, Repr

/-- An enriched tick row: the columns of the tick CSV produced by
`process_ticks` (the `spread` column is absent from the source's raw ticks,
so the final column filter drops it). -/
structure EnrichedTick where
  time_msc : ℤ
  bid : ℚ
  ask : ℚ
  last : ℚ
  volume : ℤ
  volume_real : ℚ
  flags : ℕ
  flag_desc : String
  spread_pct : ℚ
  mid : ℚ
  bid_ask_imbalance : ℚ
  session : Session
  day_of_week : String
  hour_utc : ℕ
deriving DecidableEq, Repr

/-- Per-row enrichment performed columnwise by `process_ticks`:
`spread_pct = round((ask-bid)/bid*100, 6)`, `mid = round((bid+ask)/2, 5)`,
`bid_ask_imbalance = round(bid/ask, 6)`, plus flag decoding and
time-derived metadata. -/
def enrich_tick (t : RawTick) : EnrichedTick where
  time_msc := t.time_msc
  bid := t.bid
  ask := t.ask
  last := t.last
  volume := t.volume
  volume_real := t.volume_real.getD 0
  flags := t.flags
  flag_desc := flag_description t.flags
  spread_pct := roundTo 6 ((t.ask - t.bid) / t.bid * 100)
  mid := roundTo 5 ((t.bid + t.ask) / 2)
  bid_ask_imbalance := roundTo 6 (t.bid / t.ask)
  session := get_session (hourOfMsc t.time_msc) (minuteOfMsc t.time_msc)
  day_of_week := dayNameOfMsc t.time_msc
  hour_utc := hourOfMsc t.time_msc

/-- `process_ticks`: the batch enrichment transform. The pandas column
operations act independently on each row, so the batch transform is the
per-row enrichment mapped over the batch. -/
def process_ticks (batch : List RawTick) : List EnrichedTick :=
  batch.map enrich_tick

/-! ## Watermark store (`load_state` / `save_state`) -/

/-- Observable content of `state.json` as `load_state` can encounter it:
missing file (`FileNotFoundError`), unparsable JSON (`JSONDecodeError`),
or parsed JSON with an optional `last_time_msc` field (absent field
defaults to `0` via `state.get`). -/
inductive StateFile where
  | missing
  | unparsable
  | parsed (last_time_msc : Option ℤ)
deriving DecidableEq, Repr

/-- `load_state`: reads the persisted watermark; a missing or unparsable
file yields `0`, and a value `v ≤ 0` or `v >` current time is clamped to
`now − 2000`. -/
def load_state (file : StateFile) (now_msc : ℤ) : ℤ :=
  let v : ℤ :=
    match file with
    | .missing => 0
    | .unparsable => 0
    | .parsed o => o.getD 0
  if v ≤ 0 ∨ v > now_msc then now_msc - 2000 else v

/-- `save_state`: persists the watermark, overwriting the state file. -/
def save_state (last_time_msc : ℤ) : StateFile :=
  .parsed (some last_time_msc)

/-! ## Session transition check (`check_session_change`) -/

/-- A row of the session log: the new session and the previously held
label (the time and weekday columns are renderings of the instant). -/
structure SessionEvent where
  session : Session
  prev : Option Session
deriving DecidableEq, Repr

/-- `check_session_change`: given the held `_current_session` label and a
new instant, emits a `SessionEvent` exactly when the classified session
differs from the held label, updating the held label in that case. -/
def check_session_change (prev : Option Session) (hour minute : ℕ) :
    Option Session × List SessionEvent :=
  if some (get_session hour minute) ≠ prev then
    (some (get_session hour minute), [⟨get_session hour minute, prev⟩])
  else (prev, [])

/-- Folds `check_session_change` over a sequence of observed instants
(hour, minute pairs), collecting all emitted events. -/
def run_session_checks (prev : Option Session) :
    List (ℕ × ℕ) → Option Session × List SessionEvent
  | [] => (prev, [])
  | i :: rest =>
    let r := check_session_change prev i.1 i.2
    let r2 := run_session_checks r.1 rest
    (r2.1, r.2 ++ r2.2)

/-! ## Main-loop tick ingestion state machine -/

/-- The mutable state of the main loop that the tick-ingestion path touches:
the in-memory watermark `last_time_msc`, the consecutive-failure counter,
the cumulative tick counter, the tick log, the on-disk state file, and the
session-transition state. -/
structure LoggerState where
  last_time_msc : ℤ
  fail_count : ℕ
  total_ticks : ℕ
  tick_log : List EnrichedTick
  state_file : StateFile
  current_session : Option Session
  session_log : List SessionEvent
deriving DecidableEq, Repr

/-- `ticks_raw["time_msc"].max()`: the maximum tick timestamp of a batch
(only evaluated on non-empty batches in the source). -/
def max_time_msc : List RawTick → ℤ
  | [] => 0
  | t :: ts => ts.foldl (fun acc u => max acc u.time_msc) t.time_msc

/-- The statement `fail_count += 1` on the fetch-exception path. -/
def increment_fail (s : LoggerState) : LoggerState :=
  { s with fail_count := s.fail_count + 1 }

/-- The `if fail_count >= MAX_FAILS` check on the fetch-exception path:
forces `last_time_msc = now − 1000` and zeroes the counter when the bound
is reached. -/
def reset_if_max_fails (s : LoggerState) (now_msc : ℤ) : LoggerState :=
  if MAX_FAILS ≤ s.fail_count then
    { s with last_time_msc := now_msc - 1000, fail_count := 0 }
  else s

/-- One cycle's fetch-exception path: increment the failure counter, then
reset the watermark if the counter reached `MAX_FAILS` (the cycle then
`continue`s without touching the tick log or the state file). -/
def on_fetch_error (s : LoggerState) (now_msc : ℤ) : LoggerState :=
  reset_if_max_fails (increment_fail s) now_msc

/-- One cycle's successful-fetch path: zero the failure counter; then, on a
non-empty batch whose maximum timestamp exceeds the watermark, enrich and
append the rows, advance the watermark to `max + 1`, persist it, and run
the session-transition check at the batch's maximum timestamp. -/
def on_fetch_success (s : LoggerState) (batch : List RawTick) : LoggerState :=
  let s0 := { s with fail_count := 0 }
  if 0 < batch.length then
    let new_last := max_time_msc batch
    if new_last > s0.last_time_msc then
      let df := process_ticks batch
      let sess := check_session_change s0.current_session
        (hourOfMsc new_last) (minuteOfMsc new_last)
      { s0 with
        tick_log := s0.tick_log ++ df
        total_ticks := s0.total_ticks + df.length
        last_time_msc := new_last + 1
        state_file := save_state (new_last + 1)
        current_session := sess.1
        session_log := s0.session_log ++ sess.2 }
    else s0
  else s0

/-- The outcome of one `mt5.copy_ticks_from` call: an exception, or a
fetched batch (a `None` result with a benign error code behaves as an
empty batch). -/
inductive FetchResult where
  | fetch_error
  | fetched (batch : List RawTick)

/-- One full tick-ingestion cycle of the main loop. -/
def step (s : LoggerState) (now_msc : ℤ) (r : FetchResult) : LoggerState :=
  match r with
  | .fetch_error => on_fetch_error s now_msc
  | .fetched batch => on_fetch_success s batch

/-- A sequence of successful ingestion cycles, one per fetched batch. -/
def run_success_cycles (s : LoggerState) : List (List RawTick) → LoggerState
  | [] => s
  | b :: bs => run_success_cycles (on_fetch_success s b) bs

/-- The main loop's state right after startup: watermark loaded from the
state file, counters zeroed, `_current_session = None`, logs empty. -/
def init_state (file : StateFile) (now_msc : ℤ) : LoggerState where
  last_time_msc := load_state file now_msc
  fail_count := 0
  total_ticks := 0
  tick_log := []
  state_file := file
  current_session := none
  session_log := []

/-- A sample raw tick used by concrete witnesses. -/
def sample_tick (msc : ℤ) (b a : ℚ) : RawTick where
  time_msc := msc
  bid := b
  ask := a
  last := b
  volume := 1
  volume_real := none
  flags := 6

/-! ## Theorems -/

/-- Claim C9: the batch enrichment transform, applied to a batch containing
zero rows, returns an empty result (and, being a total function, raises
no error). -/
theorem process_ticks_empty_batch : process_ticks ([] : List RawTick) = [] := rfl

/-- Claim C8: for every raw tick batch (the transform being the per-row
enrichment mapped over the batch) and every row, the enricher computes
`spread_pct = round((ask − bid)/bid × 100, 6)`, `mid = round((bid + ask)/2, 5)`
and `bid_ask_imbalance = round(bid/ask, 6)`; in particular a tick with bid
`1900.00` and ask `1900.30` gets `spread_pct = 0.015789`. -/
theorem enrichment_formulas :
    (∀ batch : List RawTick, process_ticks batch = batch.map enrich_tick) ∧
    (∀ t : RawTick,
      (enrich_tick t).spread_pct = roundTo 6 ((t.ask - t.bid) / t.bid * 100) ∧
      (enrich_tick t).mid = roundTo 5 ((t.bid + t.ask) / 2) ∧
      (enrich_tick t).bid_ask_imbalance = roundTo 6 (t.bid / t.ask)) ∧
    (enrich_tick (sample_tick 0 1900 (19003 / 10))).spread_pct = 15789 / 1000000 := by
  refine ⟨fun _ => rfl, fun t => ⟨rfl, rfl, rfl⟩, ?_⟩
  norm_num [enrich_tick, sample_tick, roundTo, round_eq]

/-- Claim C6: the session classifier computes `h = hour + minute/60` and
returns `LondonNY_Overlap` on `[12, 16)`, otherwise `London` on `[7, 16)`,
otherwise `NewYork` on `[12, 21)`, otherwise `Asia` (half-open intervals,
overlap checked first); every instant with UTC hour 13 maps to
`LondonNY_Overlap`. -/
theorem get_session_spec (hour minute : ℕ) :
    (12 ≤ frac_hour hour minute ∧ frac_hour hour minute < 16 →
      get_session hour minute = .LondonNY_Overlap) ∧
    (¬(12 ≤ frac_hour hour minute ∧ frac_hour hour minute < 16) →
      7 ≤ frac_hour hour minute ∧ frac_hour hour minute < 16 →
      get_session hour minute = .London) ∧
    (¬(12 ≤ frac_hour hour minute ∧ frac_hour hour minute < 16) →
      ¬(7 ≤ frac_hour hour minute ∧ frac_hour hour minute < 16) →
      12 ≤ frac_hour hour minute ∧ frac_hour hour minute < 21 →
      get_session hour minute = .NewYork) ∧
    (¬(12 ≤ frac_hour hour minute ∧ frac_hour hour minute < 16) →
      ¬(7 ≤ frac_hour hour minute ∧ frac_hour hour minute < 16) →
      ¬(12 ≤ frac_hour hour minute ∧ frac_hour hour minute < 21) →
      get_session hour minute = .Asia) ∧
    (hour = 13 → minute < 60 → get_session hour minute = .LondonNY_Overlap) := by
  refine ⟨?_, ?_, ?_, ?_, ?_⟩
  · intro h1
    simp only [get_session]
    rw [if_pos h1]
  · intro h1 h2
    simp only [get_session]
    rw [if_neg h1, if_pos h2]
  · intro h1 h2 h3
    simp only [get_session]
    rw [if_neg h1, if_neg h2, if_pos h3]
  · intro h1 h2 h3
    simp only [get_session]
    rw [if_neg h1, if_neg h2, if_neg h3]
  · intro hh hm
    subst hh
    have hm' : (minute : ℚ) < 60 := by exact_mod_cast hm
    have hdiv : (minute : ℚ) / 60 < 1 := (div_lt_one (by norm_num)).mpr hm'
    have hpos : (0 : ℚ) ≤ (minute : ℚ) / 60 := by positivity
    have hcond : 12 ≤ frac_hour 13 minute ∧ frac_hour 13 minute < 16 := by
      unfold frac_hour
      constructor
      · push_cast
        linarith
      · push_cast
        linarith
    simp only [get_session]
    rw [if_pos hcond]

/-- Witness for the session-classifier claim at concrete instants. -/
theorem get_session_spec_witness :
    get_session 13 30 = .LondonNY_Overlap ∧ get_session 8 0 = .London := by
  have h13 := (get_session_spec 13 30).2.2.2.2 rfl (by norm_num)
  have h8 := (get_session_spec 8 0).2.1 (by norm_num [frac_hour]) (by norm_num [frac_hour])
  exact ⟨h13, h8⟩

/-- Claim C5: `load_state` never propagates an error: a missing file, an
unparsable file, an absent field, and a stored value that is zero, negative
or in the future all yield `now − 2000`, while a value strictly between `0`
and the current time is returned unchanged. -/
theorem load_state_spec (now_msc v : ℤ) :
    load_state .missing now_msc = now_msc - 2000 ∧
    load_state .unparsable now_msc = now_msc - 2000 ∧
    load_state (.parsed none) now_msc = now_msc - 2000 ∧
    (v ≤ 0 → load_state (.parsed (some v)) now_msc = now_msc - 2000) ∧
    (v > now_msc → load_state (.parsed (some v)) now_msc = now_msc - 2000) ∧
    (0 < v → v < now_msc → load_state (.parsed (some v)) now_msc = v) := by
  refine ⟨?_, ?_, ?_, ?_, ?_, ?_⟩
  · simp [load_state]
  · simp [load_state]
  · simp [load_state]
  · intro hv
    simp only [load_state, Option.getD_some]
    rw [if_pos (Or.inl hv)]
  · intro hv
    simp only [load_state, Option.getD_some]
    rw [if_pos (Or.inr hv)]
  · intro h1 h2
    simp only [load_state, Option.getD_some]
    rw [if_neg (by omega)]

/-- Witness for the load-state claim at concrete values. -/
theorem load_state_spec_witness :
    load_state (.parsed (some 5000)) 10000 = 5000 ∧
    load_state (.parsed (some 0)) 10000 = 8000 ∧
    load_state (.parsed (some 20000)) 10000 = 8000 ∧
    load_state .missing 10000 = 8000 := by
  have h := load_state_spec 10000 5000
  have h0 := load_state_spec 10000 0
  have hf := load_state_spec 10000 20000
  refine ⟨h.2.2.2.2.2 (by norm_num) (by norm_num), ?_, ?_, ?_⟩
  · have := h0.2.2.2.1 (by norm_num)
    omega
  · have := hf.2.2.2.2.1 (by norm_num)
    omega
  · have := h.1
    omega

/-- Shape of a successful cycle that found fresh data: non-empty batch whose
maximum timestamp exceeds the watermark. -/
lemma on_fetch_success_fresh (s : LoggerState) (b : List RawTick)
    (hne : 0 < b.length) (hnew : max_time_msc b > s.last_time_msc) :
    on_fetch_success s b =
      { last_time_msc := max_time_msc b + 1
        fail_count := 0
        total_ticks := s.total_ticks + (process_ticks b).length
        tick_log := s.tick_log ++ process_ticks b
        state_file := save_state (max_time_msc b + 1)
        current_session := (check_session_change s.current_session
          (hourOfMsc (max_time_msc b)) (minuteOfMsc (max_time_msc b))).1
        session_log := s.session_log ++ (check_session_change s.current_session
          (hourOfMsc (max_time_msc b)) (minuteOfMsc (max_time_msc b))).2 } := by
  simp only [on_fetch_success]
  rw [if_pos hne, if_pos hnew]

/-- Shape of a successful cycle that found no fresh data: the batch maximum
does not exceed the watermark, so only the failure counter is zeroed. -/
lemma on_fetch_success_stale (s : LoggerState) (b : List RawTick)
    (h : ¬ max_time_msc b > s.last_time_msc) :
    on_fetch_success s b = { s with fail_count := 0 } := by
  simp only [on_fetch_success]
  by_cases h1 : 0 < b.length
  · rw [if_pos h1, if_neg h]
  · rw [if_neg h1]

/-- Claim C3: when the consecutive fetch-failure counter reaches
`MAX_FAILS`, the in-memory watermark is reset to `now − 1000` and the
failure counter is reset to zero. -/
theorem forced_reset_spec (s : LoggerState) (now_msc : ℤ)
    (h : s.fail_count = MAX_FAILS - 1) :
    (on_fetch_error s now_msc).last_time_msc = now_msc - 1000 ∧
    (on_fetch_error s now_msc).fail_count = 0 := by
  have hcond : MAX_FAILS ≤ (increment_fail s).fail_count := by
    simp only [MAX_FAILS] at h
    simp only [increment_fail, MAX_FAILS]
    omega
  unfold on_fetch_error reset_if_max_fails
  rw [if_pos hcond]
  exact ⟨rfl, rfl⟩

/-- Witness for the forced-reset claim at a concrete state and time. -/
theorem forced_reset_spec_witness :
    (on_fetch_error { init_state .missing 0 with fail_count := 4 } 5000).last_time_msc =
      5000 - 1000 ∧
    (on_fetch_error { init_state .missing 0 with fail_count := 4 } 5000).fail_count = 0 :=
  forced_reset_spec { init_state .missing 0 with fail_count := 4 } 5000 rfl

/-- Claim C4: a fetch error increments the consecutive-failure counter by
exactly one (the cycle then ends with that incremented count whenever the
bound is not yet reached), and a successful fetch resets the counter to
zero. -/
theorem fail_counter_spec (s : LoggerState) (now_msc : ℤ) (batch : List RawTick) :
    (increment_fail s).fail_count = s.fail_count + 1 ∧
    (s.fail_count + 1 < MAX_FAILS →
      (step s now_msc .fetch_error).fail_count = s.fail_count + 1) ∧
    (step s now_msc (.fetched batch)).fail_count = 0 := by
  refine ⟨rfl, ?_, ?_⟩
  · intro hlt
    simp only [step, on_fetch_error, reset_if_max_fails, increment_fail]
    rw [if_neg (by simp only [MAX_FAILS] at hlt ⊢; omega)]
  · simp only [step, on_fetch_success]
    split_ifs <;> rfl

/-- Witness for the failure-counter claim at a concrete state. -/
theorem fail_counter_spec_witness :
    (step { init_state .missing 0 with fail_count := 2 } 0 .fetch_error).fail_count =
      ({ init_state .missing 0 with fail_count := 2 } : LoggerState).fail_count + 1 ∧
    (step { init_state .missing 0 with fail_count := 2 } 0 (.fetched [])).fail_count = 0 := by
  have h := fail_counter_spec { init_state .missing 0 with fail_count := 2 } 0 []
  exact ⟨h.2.1 (by norm_num [MAX_FAILS]), h.2.2⟩

/-- Claim C2: feeding the same non-empty fresh batch in two consecutive
cycles appends its rows to the tick log exactly once: the second cycle's
dedup check skips processing, leaving the tick log, the cumulative tick
counter, the watermark and the state file unchanged. -/
theorem dedup_idempotent (s : LoggerState) (b : List RawTick)
    (hne : b ≠ []) (hnew : max_time_msc b > s.last_time_msc) :
    (on_fetch_success s b).tick_log = s.tick_log ++ process_ticks b ∧
    (on_fetch_success (on_fetch_success s b) b).tick_log =
      (on_fetch_success s b).tick_log ∧
    (on_fetch_success (on_fetch_success s b) b).total_ticks =
      (on_fetch_success s b).total_ticks ∧
    (on_fetch_success (on_fetch_success s b) b).last_time_msc =
      (on_fetch_success s b).last_time_msc ∧
    (on_fetch_success (on_fetch_success s b) b).state_file =
      (on_fetch_success s b).state_file := by
  have h1 := on_fetch_success_fresh s b (List.length_pos.mpr hne) hnew
  have hstale : ¬ max_time_msc b > (on_fetch_success s b).last_time_msc := by
    rw [h1]
    show ¬ max_time_msc b > max_time_msc b + 1
    omega
  have h2 := on_fetch_success_stale (on_fetch_success s b) b hstale
  refine ⟨by rw [h1], ?_, ?_, ?_, ?_⟩ <;> rw [h2]

/-- Witness for the dedup claim at a concrete state and batch. -/
theorem dedup_idempotent_witness :
    (on_fetch_success (init_state .missing 10000) [sample_tick 9000 1900 1901]).tick_log =
      (init_state .missing 10000).tick_log ++ process_ticks [sample_tick 9000 1900 1901] ∧
    (on_fetch_success
        (on_fetch_success (init_state .missing 10000) [sample_tick 9000 1900 1901])
        [sample_tick 9000 1900 1901]).last_time_msc =
      (on_fetch_success (init_state .missing 10000) [sample_tick 9000 1900 1901]).last_time_msc := by
  have h := dedup_idempotent (init_state .missing 10000) [sample_tick 9000 1900 1901]
    (by simp) (by norm_num [max_time_msc, sample_tick, init_state, load_state])
  exact ⟨h.1, h.2.2.2.1⟩

/-- The initial accumulator is a lower bound of a running maximum. -/
lemma le_foldl_max (l : List RawTick) (init : ℤ) :
    init ≤ l.foldl (fun acc u => max acc u.time_msc) init := by
  induction l generalizing init with
  | nil => exact le_refl _
  | cons x xs ih =>
    rw [List.foldl_cons]
    exact le_trans (le_max_left _ _) (ih _)

/-- Every element of a list is a lower bound of its running maximum. -/
lemma mem_le_foldl_max (l : List RawTick) (init : ℤ) (u : RawTick) (hu : u ∈ l) :
    u.time_msc ≤ l.foldl (fun acc w => max acc w.time_msc) init := by
  induction l generalizing init with
  | nil => cases hu
  | cons x xs ih =>
    rw [List.foldl_cons]
    rcases List.mem_cons.mp hu with h | h
    · subst h
      exact le_trans (le_max_right _ _) (le_foldl_max xs _)
    · exact ih (max init x.time_msc) h

/-- Every tick timestamp in a batch is bounded by the batch maximum. -/
lemma time_le_max_time_msc (b : List RawTick) (u : RawTick) (hu : u ∈ b) :
    u.time_msc ≤ max_time_msc b := by
  cases b with
  | nil => cases hu
  | cons t ts =>
    show u.time_msc ≤ ts.foldl (fun acc w => max acc w.time_msc) t.time_msc
    rcases List.mem_cons.mp hu with h | h
    · subst h
      exact le_foldl_max ts _
    · exact mem_le_foldl_max ts _ u h

/-- A successful cycle never decreases the watermark. -/
lemma last_time_msc_le_on_fetch_success (s : LoggerState) (b : List RawTick) :
    s.last_time_msc ≤ (on_fetch_success s b).last_time_msc := by
  by_cases h : max_time_msc b > s.last_time_msc
  · by_cases h1 : 0 < b.length
    · rw [on_fetch_success_fresh s b h1 h]
      show s.last_time_msc ≤ max_time_msc b + 1
      omega
    · simp only [on_fetch_success]
      rw [if_neg h1]
  · rw [on_fetch_success_stale s b h]

/-- A successful cycle preserves the tick-log bound: every logged tick
timestamp stays strictly below the watermark. -/
lemma tick_log_lt_on_fetch_success (s : LoggerState) (b : List RawTick)
    (hinv : ∀ e ∈ s.tick_log, e.time_msc < s.last_time_msc) :
    ∀ e ∈ (on_fetch_success s b).tick_log,
      e.time_msc < (on_fetch_success s b).last_time_msc := by
  by_cases h : max_time_msc b > s.last_time_msc
  · by_cases h1 : 0 < b.length
    · rw [on_fetch_success_fresh s b h1 h]
      intro e he
      replace he : e ∈ s.tick_log ++ process_ticks b := he
      show e.time_msc < max_time_msc b + 1
      rcases List.mem_append.mp he with hm | hm
      · have := hinv e hm
        omega
      · simp only [process_ticks] at hm
        rcases List.mem_map.mp hm with ⟨t, ht, rfl⟩
        have hle := time_le_max_time_msc b t ht
        have het : (enrich_tick t).time_msc = t.time_msc := rfl
        omega
    · simp only [on_fetch_success]
      rw [if_neg h1]
      exact hinv
  · rw [on_fetch_success_stale s b h]
    exact hinv

/-- Over any sequence of successful cycles the watermark never decreases. -/
lemma run_success_cycles_mono (s : LoggerState) (bs : List (List RawTick)) :
    s.last_time_msc ≤ (run_success_cycles s bs).last_time_msc := by
  induction bs generalizing s with
  | nil => exact le_refl _
  | cons b rest ih =>
    rw [run_success_cycles]
    exact le_trans (last_time_msc_le_on_fetch_success s b) (ih _)

/-- Over any sequence of successful cycles the tick-log bound is preserved. -/
lemma run_success_cycles_inv (s : LoggerState) (bs : List (List RawTick))
    (hinv : ∀ e ∈ s.tick_log, e.time_msc < s.last_time_msc) :
    ∀ e ∈ (run_success_cycles s bs).tick_log,
      e.time_msc < (run_success_cycles s bs).last_time_msc := by
  induction bs generalizing s with
  | nil => exact hinv
  | cons b rest ih =>
    rw [run_success_cycles]
    exact ih _ (tick_log_lt_on_fetch_success s b hinv)

/-- Claim C1: an ingestion cycle whose non-empty batch has maximum timestamp
`max_time` strictly above the watermark appends the batch and sets the
watermark to `max_time + 1`; consequently, across any sequence of
(successful) ingestion cycles the watermark is non-decreasing and stays
strictly greater than every tick timestamp consumed so far. -/
theorem watermark_monotone (s : LoggerState) (batches : List (List RawTick))
    (hinv : ∀ e ∈ s.tick_log, e.time_msc < s.last_time_msc) :
    (∀ b : List RawTick, b ≠ [] → max_time_msc b > s.last_time_msc →
      (on_fetch_success s b).last_time_msc = max_time_msc b + 1 ∧
      (on_fetch_success s b).tick_log = s.tick_log ++ process_ticks b) ∧
    s.last_time_msc ≤ (run_success_cycles s batches).last_time_msc ∧
    ∀ e ∈ (run_success_cycles s batches).tick_log,
      e.time_msc < (run_success_cycles s batches).last_time_msc := by
  refine ⟨?_, run_success_cycles_mono s batches, run_success_cycles_inv s batches hinv⟩
  intro b hb hnew
  rw [on_fetch_success_fresh s b (List.length_pos.mpr hb) hnew]
  exact ⟨rfl, rfl⟩

/-- Witness for the watermark-monotonicity claim at a concrete run. -/
theorem watermark_monotone_witness :
    (on_fetch_success (init_state .missing 10000)
        [sample_tick 9000 1900 1901]).last_time_msc =
      max_time_msc [sample_tick 9000 1900 1901] + 1 ∧
    (init_state .missing 10000).last_time_msc ≤
      (run_success_cycles (init_state .missing 10000)
        [[sample_tick 9000 1900 1901], [sample_tick 9500 1900 1901]]).last_time_msc := by
  have h := watermark_monotone (init_state .missing 10000)
    [[sample_tick 9000 1900 1901], [sample_tick 9500 1900 1901]]
    (by intro e he; simp [init_state] at he)
  refine ⟨(h.1 [sample_tick 9000 1900 1901] (by simp)
    (by norm_num [max_time_msc, sample_tick, init_state, load_state])).1, h.2.1⟩

/-- Shape of the fetch-error path when the failure bound is reached. -/
lemma on_fetch_error_reset (s : LoggerState) (now_msc : ℤ)
    (h : s.fail_count = MAX_FAILS - 1) :
    on_fetch_error s now_msc =
      { s with last_time_msc := now_msc - 1000, fail_count := 0 } := by
  have hcond : MAX_FAILS ≤ (increment_fail s).fail_count := by
    simp only [MAX_FAILS] at h
    simp only [increment_fail, MAX_FAILS]
    omega
  unfold on_fetch_error reset_if_max_fails
  rw [if_pos hcond]
  rfl

/-- Claim C10: the forced watermark reset changes only in-memory state:
`save_state` is not invoked on the reset path, so the state file keeps the
pre-reset watermark (and a restart loading it resumes from that old value)
until the next successful fresh batch overwrites it. -/
theorem reset_preserves_state_file (s : LoggerState) (now_msc now2 v : ℤ)
    (hfc : s.fail_count = MAX_FAILS - 1)
    (hfile : s.state_file = .parsed (some v))
    (hv : 0 < v) (hvnow : v ≤ now2) :
    (on_fetch_error s now_msc).state_file = s.state_file ∧
    (on_fetch_error s now_msc).tick_log = s.tick_log ∧
    (on_fetch_error s now_msc).total_ticks = s.total_ticks ∧
    (on_fetch_error s now_msc).last_time_msc = now_msc - 1000 ∧
    load_state (on_fetch_error s now_msc).state_file now2 = v ∧
    (∀ b : List RawTick, b ≠ [] → max_time_msc b > now_msc - 1000 →
      (on_fetch_success (on_fetch_error s now_msc) b).state_file =
        save_state (max_time_msc b + 1)) := by
  rw [on_fetch_error_reset s now_msc hfc]
  refine ⟨rfl, rfl, rfl, rfl, ?_, ?_⟩
  · show load_state s.state_file now2 = v
    rw [hfile]
    simp only [load_state, Option.getD_some]
    rw [if_neg (by omega)]
  · intro b hb hnew
    rw [on_fetch_success_fresh _ b (List.length_pos.mpr hb) hnew]

/-- Witness for the reset-frame claim at a concrete state. -/
theorem reset_preserves_state_file_witness :
    (on_fetch_error
        { init_state (.parsed (some 3000)) 10000 with fail_count := 4 }
        12000).state_file =
      ({ init_state (.parsed (some 3000)) 10000 with fail_count := 4 } :
        LoggerState).state_file ∧
    load_state
      (on_fetch_error
        { init_state (.parsed (some 3000)) 10000 with fail_count := 4 }
        12000).state_file 20000 = 3000 := by
  have h := reset_preserves_state_file
    { init_state (.parsed (some 3000)) 10000 with fail_count := 4 }
    12000 20000 3000 rfl rfl (by norm_num) (by norm_num)
  exact ⟨h.1, h.2.2.2.2.1⟩

/-- From process startup (`_current_session = None`) even a same-session
sequence emits an event: the first observation always differs from `None`,
so two Asia-hour instants produce one `SessionEvent`, not zero. -/
theorem session_startup_counterexample :
    get_session 1 0 = get_session 2 0 ∧
    (run_session_checks none [(1, 0), (2, 0)]).2.length = 1 ∧
    (run_session_checks none [(1, 0), (2, 0)]).2.length ≠ 0 := by
  refine ⟨by norm_num [get_session, frac_hour], ?_, ?_⟩ <;>
  · simp only [run_session_checks, check_session_change]
    norm_num [get_session, frac_hour]
    simp

/-- The transition check leaves a matching held label unchanged and emits
nothing. -/
lemma check_session_change_eq (l : Session) (h m : ℕ)
    (hs : get_session h m = l) :
    check_session_change (some l) h m = (some l, []) := by
  simp only [check_session_change, hs]
  rw [if_neg (by simp)]

/-- The transition check emits one event when the classified session
differs from the held label, updating the held label. -/
lemma check_session_change_ne (prev : Option Session) (h m : ℕ) (l : Session)
    (hs : get_session h m = l) (hne : some l ≠ prev) :
    check_session_change prev h m = (some l, [⟨l, prev⟩]) := by
  simp only [check_session_change, hs]
  rw [if_pos hne]

/-- A sequence of instants all classified as the held label emits nothing
and leaves the held label unchanged. -/
lemma run_session_checks_same (l : Session) (is : List (ℕ × ℕ))
    (h : ∀ p ∈ is, get_session p.1 p.2 = l) :
    run_session_checks (some l) is = (some l, []) := by
  induction is with
  | nil => rfl
  | cons i rest ih =>
    have hi := check_session_change_eq l i.1 i.2 (h i (List.mem_cons_self i rest))
    simp only [run_session_checks, hi]
    simp [ih (fun p hp => h p (List.mem_cons_of_mem i hp))]

/-- Session checks over a concatenation run the second part from the label
held after the first and concatenate the emitted events. -/
lemma run_session_checks_append (prev : Option Session) (xs ys : List (ℕ × ℕ)) :
    run_session_checks prev (xs ++ ys) =
      ((run_session_checks (run_session_checks prev xs).1 ys).1,
        (run_session_checks prev xs).2 ++
          (run_session_checks (run_session_checks prev xs).1 ys).2) := by
  induction xs generalizing prev with
  | nil => simp [run_session_checks]
  | cons x xs ih =>
    simp only [List.cons_append, run_session_checks, List.append_eq]
    rw [ih]
    simp [List.append_assoc]

/-- Amended claim C7: from startup (`None` held label) the first
observation always emits one event; from a held label `l`, a same-label
sequence emits zero events, and a sequence crossing exactly one session
boundary emits exactly one event. -/
theorem session_edge_trigger (l l' : Session) (as bs is : List (ℕ × ℕ))
    (i : ℕ × ℕ)
    (has : ∀ p ∈ as, get_session p.1 p.2 = l)
    (hbs : ∀ p ∈ bs, get_session p.1 p.2 = l')
    (hne : l ≠ l') (hbs0 : bs ≠ [])
    (hi : get_session i.1 i.2 = l)
    (his : ∀ p ∈ is, get_session p.1 p.2 = l) :
    (run_session_checks (some l) as).2.length = 0 ∧
    (run_session_checks (some l) (as ++ bs)).2.length = 1 ∧
    (run_session_checks none (i :: is)).2.length = 1 := by
  refine ⟨?_, ?_, ?_⟩
  · rw [run_session_checks_same l as has]
    rfl
  · obtain ⟨b, bs', rfl⟩ := List.exists_cons_of_ne_nil hbs0
    have hb : get_session b.1 b.2 = l' := hbs b (List.mem_cons_self b bs')
    have hcb := check_session_change_ne (some l) b.1 b.2 l' hb
      (fun hc => hne (Option.some.inj hc).symm)
    have hrest := run_session_checks_same l' bs'
      (fun p hp => hbs p (List.mem_cons_of_mem b hp))
    rw [run_session_checks_append, run_session_checks_same l as has]
    simp only [run_session_checks, hcb]
    simp [hrest]
  · have hci := check_session_change_ne none i.1 i.2 l hi (by simp)
    simp only [run_session_checks, hci]
    simp [run_session_checks_same l is his]

/-- Witness for the amended session-edge-trigger claim at concrete
instants: Asia instants, then a London instant crossing one boundary. -/
theorem session_edge_trigger_witness :
    (run_session_checks (some .Asia) [(1, 0)]).2.length = 0 ∧
    (run_session_checks (some .Asia) ([(1, 0)] ++ [(8, 0)])).2.length = 1 ∧
    (run_session_checks none ((2, 0) :: [(3, 0)])).2.length = 1 := by
  have h := session_edge_trigger Session.Asia Session.London [(1, 0)] [(8, 0)] [(3, 0)] (2, 0)
    (by intro p hp; simp at hp; subst hp; norm_num [get_session, frac_hour])
    (by intro p hp; simp at hp; subst hp; norm_num [get_session, frac_hour])
    (by simp)
    (by simp)
    (by norm_num [get_session, frac_hour])
    (by intro p hp; simp at hp; subst hp; norm_num [get_session, frac_hour])
  exact h

end MT5Logger
